import Mathlib

/-!
Verification of the date-resolution core of `Momemtum Template/HelperInfra.py`.

The Python source works with `datetime` dates and the standard-library
`calendar` module.  The embedding below models:

* dates as triples `(year, month, day)` with unbounded integer year
  (the spec's data model: "year unbounded integer, month in [1,12]");
* `calendar.isleap` / `calendar.monthrange(y, m)[1]` as `isLeapYear` /
  `monthLength`;
* `datetime.weekday()` (0 = Monday .. 6 = Sunday, proleptic Gregorian) via
  Zeller's congruence, restructured as a per-month constant `monthAnchor`
  plus the day number, reduced mod 7;
* `calendar.monthcalendar` (Monday-first week grid, out-of-month cells 0)
  as `monthWeeks`;
* Python `int(...)` on the pattern fields as `parseIntChars` (optional
  sign followed by a non-empty run of ASCII digits — the fragment of
  Python's integer grammar relevant to the pattern language);
* Python `str.split('/')` as `splitChar '/'` on the character list;
* the `raise ValueError` sites as an `ErrKind` error value, tagged with
  the taxonomy the specification assigns to each site (`FormatError`,
  `ParseError`, `ValidationError`, `InvalidArgument`); indexing an empty
  list (`day_occurrences[-1]`) is tagged `indexError`;
* the two `while` loops of `get_adjusted_year_month` as fuelled structural
  recursions (`loopDown`, `loopUp`) with provably sufficient fuel, so that
  every definition evaluates by kernel reduction.
-/

/-- Error taxonomy for the `raise ValueError` sites of `get_target_date`,
following the specification's error-kind assignment. -/
inductive ErrKind where
  | invalidArgument
  | formatError
  | parseError
  | validationError
  | indexError
deriving DecidableEq

/-- A calendar date `(year, month, day)`.  Year and month are unbounded
integers (months are kept normalized to 1..12 by `get_adjusted_year_month`);
the day is a natural number. -/
structure SimpleDate where
  year : Int
  month : Int
  day : Nat
deriving DecidableEq

/-- Value of a run of ASCII digits, most significant first. -/
def digitsVal (l : List Char) : Nat :=
  l.foldl (fun acc c => 10 * acc + (c.toNat - 48)) 0

/-- All characters are ASCII digits. -/
def allDigits (l : List Char) : Bool :=
  l.all (fun c => c.isDigit)

/-- Embedding of Python `int(s)` on a pattern field: an optional sign
followed by a non-empty run of digits.  Returns `none` where Python's
`int` raises `ValueError`. -/
def parseIntChars : List Char → Option Int
  | [] => none
  | c :: rest =>
    if c = '-' then
      if rest.isEmpty then none
      else if allDigits rest then some (-(digitsVal rest : Int)) else none
    else if c = '+' then
      if rest.isEmpty then none
      else if allDigits rest then some ((digitsVal rest : Int)) else none
    else if allDigits (c :: rest) then some ((digitsVal (c :: rest) : Int))
    else none

/-- Embedding of Python `str.split(sep)` for a one-character separator:
`splitChar sep "".data = [[]]`, and every occurrence of `sep` opens a new
(possibly empty) field. -/
def splitChar (sep : Char) : List Char → List (List Char)
  | [] => [[]]
  | c :: rest =>
    match splitChar sep rest with
    | [] => [[]]
    | g :: gs => if c = sep then [] :: g :: gs else (c :: g) :: gs

/-- First `while` loop of `get_adjusted_year_month`
(`while month <= 0: year -= 1; month += 12`), run on explicit fuel. -/
def loopDown : Nat → Int → Int → Int × Int
  | 0, y, m => (y, m)
  | k + 1, y, m => if m ≤ 0 then loopDown k (y - 1) (m + 12) else (y, m)

/-- Second `while` loop of `get_adjusted_year_month`
(`while month > 12: year += 1; month -= 12`), run on explicit fuel. -/
def loopUp : Nat → Int → Int → Int × Int
  | 0, y, m => (y, m)
  | k + 1, y, m => if m > 12 then loopUp k (y + 1) (m - 12) else (y, m)

/-- The sequential composition of the two while loops of
`get_adjusted_year_month`: run the `month <= 0` loop, then the
`month > 12` loop on its result.  The fuel `|m| + 1` is provably
sufficient for each loop (see `loopDown_eq` / `loopUp_eq`). -/
def normalizeYM (y m : Int) : Int × Int :=
  loopUp (((loopDown (m.natAbs + 1) y m).2).natAbs + 1)
    ((loopDown (m.natAbs + 1) y m).1) ((loopDown (m.natAbs + 1) y m).2)

/-- Embedding of the inner helper `get_adjusted_year_month(year, month,
offset)`: add the offset to the month, then normalize with the two
while loops. -/
def get_adjusted_year_month (year month offset : Int) : Int × Int :=
  normalizeYM year (month + offset)

/-- Embedding of `calendar.isleap` (Python `%` on integers is
floor-remainder, as is Lean's `Int.emod` for a positive modulus). -/
def isLeapYear (y : Int) : Bool :=
  y % 4 == 0 && (y % 100 != 0 || y % 400 == 0)

/-- Embedding of `calendar.monthrange(y, m)[1]`: the number of days of
month `m` of year `y`.  Months outside 1..12 (on which the Python call
would raise) are given the junk value 0; all uses are on normalized
months. -/
def monthLength (y m : Int) : Nat :=
  if m = 1 then 31
  else if m = 2 then (if isLeapYear y then 29 else 28)
  else if m = 3 then 31
  else if m = 4 then 30
  else if m = 5 then 31
  else if m = 6 then 30
  else if m = 7 then 31
  else if m = 8 then 31
  else if m = 9 then 30
  else if m = 10 then 31
  else if m = 11 then 30
  else if m = 12 then 31
  else 0

/-- Month-dependent constant of Zeller's congruence for the proleptic
Gregorian calendar, arranged so that the weekday of day `d` of the month
is `(d + monthAnchor y m) % 7` with 0 = Monday (the convention of Python's
`datetime.weekday`). -/
def monthAnchor (y m : Int) : Int :=
  let yy := if m ≤ 2 then y - 1 else y
  let mm := if m ≤ 2 then m + 12 else m
  (13 * (mm + 1)) / 5 + yy % 100 + (yy % 100) / 4 + (yy / 100) / 4 + 5 * (yy / 100) + 5

/-- Embedding of `datetime(y, m, d).weekday()`: 0 = Monday .. 6 = Sunday. -/
def dayOfWeek (y m : Int) (d : Nat) : Nat :=
  (((d : Int) + monthAnchor y m) % 7).toNat

/-- Weekday of the first day of the month (the number of leading `0`
cells of the Monday-first month grid). -/
def firstWeekday (y m : Int) : Nat := dayOfWeek y m 1

/-- The flat cell list of the Monday-first month grid: `first` leading
zeros, the day numbers `1..n`, and trailing zeros padding to a multiple
of 7. -/
def gridCells (first n : Nat) : List Nat :=
  List.replicate first 0 ++ List.range' 1 n ++ List.replicate ((7 - (first + n) % 7) % 7) 0

/-- Split a flat cell list into weeks of 7, on explicit fuel. -/
def chunksAux : Nat → List Nat → List (List Nat)
  | _, [] => []
  | 0, _ :: _ => []
  | k + 1, x :: xs => ((x :: xs).take 7) :: chunksAux k ((x :: xs).drop 7)

/-- Split a flat cell list into weeks of 7. -/
def chunk7 (l : List Nat) : List (List Nat) := chunksAux l.length l

/-- Embedding of `calendar.monthcalendar(y, m)`: the Monday-first week
grid of the month, out-of-month cells 0. -/
def monthWeeks (y m : Int) : List (List Nat) :=
  chunk7 (gridCells (firstWeekday y m) (monthLength y m))

/-- Embedding of the occurrence-collection loop of `get_target_date`:
`for week in c: if week[i] != 0: day_occurrences.append(week[i])`. -/
def colScan (weeks : List (List Nat)) (i : Nat) : List Nat :=
  weeks.foldl (fun acc week => if week.getD i 0 ≠ 0 then acc ++ [week.getD i 0] else acc) []

/-- The ascending list of days of month `(y, m)` that fall on weekday `i`
(0 = Monday).  This is the specification's description of `occurrences`;
`colScan_monthWeeks_eq` proves it equal to the grid column scan the code
performs. -/
def weekdayDays (y m : Int) (i : Nat) : List Nat :=
  (List.range' 1 (monthLength y m)).filter (fun d => dayOfWeek y m d = i)

/-- Parametric form of the grid column scan, depending only on the
first-weekday and the month length. -/
def occParam (first n i : Nat) : List Nat :=
  (List.range' 1 n).filter (fun d => (d - 1 + first) % 7 = i)

/-- Parsing/validation section of the `query_type == 1` branch of
`get_target_date` (the body of its `try`), with the error sites tagged
by the specification's taxonomy.  Returns the month offset, the 0-based
day-of-week (`int(day_of_week) - 1`), and the raw week-position field. -/
def parse1 (pattern : String) : Except ErrKind (Int × Int × List Char) :=
  match splitChar '/' pattern.data with
  | [moStr, dowStr, wpStr] =>
    match parseIntChars moStr with
    | none => .error .parseError
    | some month_offset =>
      match parseIntChars dowStr with
      | none => .error .parseError
      | some dowRaw =>
        if ¬(1 ≤ (dowRaw - 1) + 1 ∧ (dowRaw - 1) + 1 ≤ 5) then .error .validationError
        else if wpStr ≠ ['1'] ∧ wpStr ≠ ['2'] ∧ wpStr ≠ ['3'] ∧ wpStr ≠ ['L'] then
          .error .validationError
        else .ok (month_offset, dowRaw - 1, wpStr)
  | _ => .error .formatError

/-- Parsing/validation section of the `query_type == 2` branch of
`get_target_date`: the string must end in `F` or `L`, and the remaining
leading slice must parse as an integer.  Returns the month offset and
`is_first_day`. -/
def parse2 (pattern : String) : Except ErrKind (Int × Bool) :=
  if pattern.data.getLast? = some 'F' ∨ pattern.data.getLast? = some 'L' then
    match parseIntChars pattern.data.dropLast with
    | some month_offset => .ok (month_offset, decide (pattern.data.getLast? = some 'F'))
    | none => .error .parseError
  else .error .formatError

/-- Embedding of `get_target_date(start_date, pattern, query_type)`.
Failures are returned as `Except.error` with the specification's error
kind for the corresponding `raise` site; Python's `day_occurrences[-1]`
on an empty list (an uncaught `IndexError`) is `.error .indexError`. -/
def get_target_date (start_date : SimpleDate) (pattern : String) (query_type : Int) :
    Except ErrKind SimpleDate :=
  if ¬(query_type = 1 ∨ query_type = 2) then .error .invalidArgument
  else if query_type = 1 then
    match parse1 pattern with
    | .error e => .error e
    | .ok (month_offset, day_of_week, week_pos) =>
      let p := get_adjusted_year_month start_date.year start_date.month month_offset
      let c := monthWeeks p.1 p.2
      let day_occurrences := colScan c day_of_week.toNat
      if week_pos = ['L'] then
        match day_occurrences.getLast? with
        | some v => .ok ⟨p.1, p.2, v⟩
        | none => .error .indexError
      else
        let week_index := digitsVal week_pos - 1
        if week_index < day_occurrences.length then
          .ok ⟨p.1, p.2, day_occurrences.getD week_index 0⟩
        else
          match day_occurrences.getLast? with
          | some v => .ok ⟨p.1, p.2, v⟩
          | none => .error .indexError
  else
    match parse2 pattern with
    | .error e => .error e
    | .ok (month_offset, is_first_day) =>
      let p := get_adjusted_year_month start_date.year start_date.month month_offset
      if is_first_day then .ok ⟨p.1, p.2, 1⟩
      else .ok ⟨p.1, p.2, monthLength p.1 p.2⟩

/-- Embedding of `last_thursday(year, month)`.  The `timedelta`
subtraction stays inside the month (`offset ≤ 6 < 28 ≤ last_day` for
months 1..12), so it is day arithmetic. -/
def last_thursday (year month : Int) : SimpleDate :=
  let last_day := monthLength year month
  let offset := (((dayOfWeek year month last_day : Int)) - 3) % 7
  ⟨year, month, last_day - offset.toNat⟩

/-- Successor date of a valid date: embedding of `+ timedelta(days=1)`,
which may cross into the next month or year. -/
def nextDay (d : SimpleDate) : SimpleDate :=
  if d.day < monthLength d.year d.month then ⟨d.year, d.month, d.day + 1⟩
  else if d.month < 12 then ⟨d.year, d.month + 1, 1⟩
  else ⟨d.year + 1, 1, 1⟩

/-- Embedding of `last_friday_of_previous_month(year, month)`: step to
the previous month, find its last Thursday (the inline duplicate of the
`last_thursday` computation), and add one day. -/
def last_friday_of_previous_month (year month : Int) : SimpleDate :=
  let p := if month = 1 then (year - 1, (12 : Int)) else (year, month - 1)
  let last_day := monthLength p.1 p.2
  let offset := (((dayOfWeek p.1 p.2 last_day : Int)) - 3) % 7
  nextDay ⟨p.1, p.2, last_day - offset.toNat⟩

instance {α β : Type} [DecidableEq α] [DecidableEq β] : DecidableEq (Except α β) := fun a b =>
  match a, b with
  | .ok x, .ok y => if h : x = y then .isTrue (by rw [h]) else .isFalse (by simp [h])
  | .error x, .error y => if h : x = y then .isTrue (by rw [h]) else .isFalse (by simp [h])
  | .ok _, .error _ => .isFalse (by simp)
  | .error _, .ok _ => .isFalse (by simp)

/-! ## MonthShifter: the two while loops and their closed form -/

theorem loopDown_eq (k : Nat) : ∀ y m : Int, 1 ≤ m + 12 * k →
    loopDown k y m = if 1 ≤ m then (y, m) else (y + (m - 1) / 12, (m - 1) % 12 + 1) := by
  induction k with
  | zero =>
    intro y m h
    have h1 : 1 ≤ m := by omega
    have step : loopDown 0 y m = (y, m) := rfl
    rw [step, if_pos h1]
  | succ k ih =>
    intro y m h
    have step : loopDown (k + 1) y m = if m ≤ 0 then loopDown k (y - 1) (m + 12) else (y, m) :=
      rfl
    by_cases hm : m ≤ 0
    · have hfuel : 1 ≤ m + 12 + 12 * (k : Int) := by omega
      rw [step, if_pos hm, ih (y - 1) (m + 12) hfuel]
      have hnot : ¬ 1 ≤ m := by omega
      by_cases h12 : 1 ≤ m + 12
      · rw [if_pos h12, if_neg hnot]
        simp only [Prod.mk.injEq]
        omega
      · rw [if_neg h12, if_neg hnot]
        simp only [Prod.mk.injEq]
        omega
    · have h1 : 1 ≤ m := by omega
      rw [step, if_neg hm, if_pos h1]

theorem loopUp_eq (k : Nat) : ∀ y m : Int, m - 12 * k ≤ 12 → 1 ≤ m →
    loopUp k y m = if m ≤ 12 then (y, m) else (y + (m - 1) / 12, (m - 1) % 12 + 1) := by
  induction k with
  | zero =>
    intro y m h h1
    have h12 : m ≤ 12 := by omega
    have step : loopUp 0 y m = (y, m) := rfl
    rw [step, if_pos h12]
  | succ k ih =>
    intro y m h h1
    have step : loopUp (k + 1) y m = if m > 12 then loopUp k (y + 1) (m - 12) else (y, m) :=
      rfl
    by_cases hm : m > 12
    · have hfuel : m - 12 - 12 * (k : Int) ≤ 12 := by omega
      rw [step, if_pos hm, ih (y + 1) (m - 12) hfuel (by omega)]
      have hnot : ¬ m ≤ 12 := by omega
      by_cases h12 : m - 12 ≤ 12
      · rw [if_pos h12, if_neg hnot]
        simp only [Prod.mk.injEq]
        omega
      · rw [if_neg h12, if_neg hnot]
        simp only [Prod.mk.injEq]
        omega
    · have h12 : m ≤ 12 := by omega
      rw [step, if_neg hm, if_pos h12]

/-- The two-loop normalization equals the floor-division closed form. -/
theorem normalizeYM_closed (y m : Int) :
    normalizeYM y m = (y + (m - 1) / 12, (m - 1) % 12 + 1) := by
  have hd : loopDown (m.natAbs + 1) y m =
      if 1 ≤ m then (y, m) else (y + (m - 1) / 12, (m - 1) % 12 + 1) :=
    loopDown_eq _ y m (by omega)
  unfold normalizeYM
  by_cases h0 : 1 ≤ m
  · rw [if_pos h0] at hd
    rw [hd]
    dsimp only
    have hu := loopUp_eq (m.natAbs + 1) y m (by omega) h0
    rw [hu]
    by_cases h12 : m ≤ 12
    · rw [if_pos h12]
      simp only [Prod.mk.injEq]
      omega
    · rw [if_neg h12]
  · rw [if_neg h0] at hd
    rw [hd]
    dsimp only
    have hb1 : 1 ≤ (m - 1) % 12 + 1 := by omega
    have hb2 : (m - 1) % 12 + 1 ≤ 12 := by omega
    have hu := loopUp_eq (((m - 1) % 12 + 1).natAbs + 1) (y + (m - 1) / 12)
      ((m - 1) % 12 + 1) (by omega) hb1
    rw [hu, if_pos hb2]

/-- The iterative normalization equals the floor-division closed form,
for every integer month (in particular for months 1..12). -/
theorem get_adjusted_year_month_closed (y m off : Int) :
    get_adjusted_year_month y m off = (y + (m + off - 1) / 12, (m + off - 1) % 12 + 1) := by
  unfold get_adjusted_year_month
  rw [normalizeYM_closed]

/-- The normalized month is always in 1..12. -/
theorem get_adjusted_year_month_month_bounds (y m off : Int) :
    1 ≤ (get_adjusted_year_month y m off).2 ∧ (get_adjusted_year_month y m off).2 ≤ 12 := by
  rw [get_adjusted_year_month_closed]
  constructor <;> simp <;> omega

/-- C3: for every year, every month in 1..12 and every integer offset, the
iterative while-loop normalization of `get_adjusted_year_month` terminates and
returns exactly the closed form
`(year + (month - 1 + offset).fdiv 12, (month - 1 + offset).fmod 12 + 1)`
with floor-division semantics; in particular the returned month is in 1..12. -/
theorem c3_month_shift_closed_form (y m off : Int) (h1 : 1 ≤ m) (h2 : m ≤ 12) :
    get_adjusted_year_month y m off =
      (y + Int.fdiv (m - 1 + off) 12, Int.fmod (m - 1 + off) 12 + 1) ∧
    1 ≤ (get_adjusted_year_month y m off).2 ∧ (get_adjusted_year_month y m off).2 ≤ 12 := by
  refine ⟨?_, get_adjusted_year_month_month_bounds y m off⟩
  rw [Int.fdiv_eq_ediv _ (by norm_num), Int.fmod_eq_emod _ (by norm_num),
    get_adjusted_year_month_closed]
  have he : m - 1 + off = m + off - 1 := by ring
  rw [he]

theorem c3_month_shift_closed_form_witness :
    (1 : Int) ≤ 11 ∧ (11 : Int) ≤ 12 ∧
    (get_adjusted_year_month 2024 11 (-2) =
        (2024 + Int.fdiv (11 - 1 + (-2)) 12, Int.fmod (11 - 1 + (-2)) 12 + 1) ∧
      1 ≤ (get_adjusted_year_month 2024 11 (-2)).2 ∧
      (get_adjusted_year_month 2024 11 (-2)).2 ≤ 12) :=
  ⟨by norm_num, by norm_num, c3_month_shift_closed_form 2024 11 (-2) (by norm_num) (by norm_num)⟩

/-- C6: shifting by `offset` and then by `-offset` is the identity on
normalized `(year, month)` pairs, in particular across year boundaries. -/
theorem c6_month_shift_round_trip (y m off : Int) (h1 : 1 ≤ m) (h2 : m ≤ 12) :
    get_adjusted_year_month (get_adjusted_year_month y m off).1
      (get_adjusted_year_month y m off).2 (-off) = (y, m) := by
  rw [get_adjusted_year_month_closed, get_adjusted_year_month_closed]
  simp only [Prod.mk.injEq]
  omega

theorem c6_month_shift_round_trip_witness :
    ((1 : Int) ≤ 1 ∧ (1 : Int) ≤ 12 ∧
      get_adjusted_year_month (get_adjusted_year_month 2024 1 (-1)).1
        (get_adjusted_year_month 2024 1 (-1)).2 (-(-1)) = (2024, 1)) ∧
    ((1 : Int) ≤ 12 ∧ (12 : Int) ≤ 12 ∧
      get_adjusted_year_month (get_adjusted_year_month 2023 12 1).1
        (get_adjusted_year_month 2023 12 1).2 (-1) = (2023, 12)) :=
  ⟨⟨by norm_num, by norm_num, c6_month_shift_round_trip 2024 1 (-1) (by norm_num) (by norm_num)⟩,
   ⟨by norm_num, by norm_num, c6_month_shift_round_trip 2023 12 1 (by norm_num) (by norm_num)⟩⟩

/-! ## Calendar grid: the column scan equals the filtered day range -/

set_option maxRecDepth 4000

theorem monthLength_bounds (y m : Int) (h1 : 1 ≤ m) (h2 : m ≤ 12) :
    28 ≤ monthLength y m ∧ monthLength y m ≤ 31 := by
  interval_cases m <;> simp [monthLength] <;> split_ifs <;> norm_num

theorem monthLength_mem (y m : Int) (h1 : 1 ≤ m) (h2 : m ≤ 12) :
    monthLength y m = 28 ∨ monthLength y m = 29 ∨ monthLength y m = 30 ∨
      monthLength y m = 31 := by
  interval_cases m <;> simp [monthLength] <;> split_ifs <;> norm_num

theorem firstWeekday_lt (y m : Int) : firstWeekday y m < 7 := by
  unfold firstWeekday dayOfWeek
  omega

/-- The weekday of day `d` in terms of the weekday of day 1 (i.e. the
grid column of day `d`). -/
theorem dayOfWeek_as_first (y m : Int) (d : Nat) (hd : 1 ≤ d) :
    dayOfWeek y m d = (d - 1 + firstWeekday y m) % 7 := by
  unfold firstWeekday dayOfWeek
  omega

/-- Key grid fact, by exhaustive evaluation over the 196 possible
(first-weekday, month-length, column) configurations: scanning column `i`
of the Monday-first week grid collects exactly the days `d` of `1..n`
whose grid column `(d - 1 + first) % 7` is `i`. -/
theorem grid_col_eq : ∀ first : Nat, first < 7 → ∀ j : Nat, j < 4 → ∀ i : Nat, i < 7 →
    colScan (chunk7 (gridCells first (28 + j))) i = occParam first (28 + j) i := by decide

theorem occParam_len : ∀ first : Nat, first < 7 → ∀ j : Nat, j < 4 → ∀ i : Nat, i < 7 →
    (occParam first (28 + j) i).length = 4 ∨ (occParam first (28 + j) i).length = 5 := by
  decide

theorem weekdayDays_eq_occParam (y m : Int) (i : Nat) :
    weekdayDays y m i = occParam (firstWeekday y m) (monthLength y m) i := by
  unfold weekdayDays occParam
  apply List.filter_congr
  intro d hd
  rw [List.mem_range'_1] at hd
  rw [dayOfWeek_as_first y m d hd.1]

/-- The occurrence-collection loop of the code (a column scan of
`calendar.monthcalendar`) computes exactly the ascending filtered day
list `weekdayDays`. -/
theorem colScan_monthWeeks_eq (y m : Int) (i : Nat) (h1 : 1 ≤ m) (h2 : m ≤ 12)
    (hi : i < 7) : colScan (monthWeeks y m) i = weekdayDays y m i := by
  rw [weekdayDays_eq_occParam]
  unfold monthWeeks
  have hml := monthLength_bounds y m h1 h2
  have hf := firstWeekday_lt y m
  have hrep : monthLength y m = 28 + (monthLength y m - 28) := by omega
  rw [hrep]
  exact grid_col_eq _ hf _ (by omega) i hi

theorem weekdayDays_length (y m : Int) (i : Nat) (h1 : 1 ≤ m) (h2 : m ≤ 12) (hi : i < 7) :
    (weekdayDays y m i).length = 4 ∨ (weekdayDays y m i).length = 5 := by
  rw [weekdayDays_eq_occParam]
  have hml := monthLength_bounds y m h1 h2
  have hf := firstWeekday_lt y m
  have hrep : monthLength y m = 28 + (monthLength y m - 28) := by omega
  rw [hrep]
  exact occParam_len _ hf _ (by omega) i hi

theorem weekdayDays_ne_nil (y m : Int) (i : Nat) (h1 : 1 ≤ m) (h2 : m ≤ 12) (hi : i < 7) :
    weekdayDays y m i ≠ [] := by
  have := weekdayDays_length y m i h1 h2 hi
  intro hnil
  rw [hnil] at this
  simp at this

theorem weekdayDays_sorted (y m : Int) (i : Nat) :
    List.Sorted (· < ·) (weekdayDays y m i) :=
  List.Pairwise.sublist (List.filter_sublist _) (List.pairwise_lt_range' 1 _)

theorem weekdayDays_mem (y m : Int) (i d : Nat) (hd : d ∈ weekdayDays y m i) :
    dayOfWeek y m d = i ∧ 1 ≤ d ∧ d ≤ monthLength y m := by
  unfold weekdayDays at hd
  rw [List.mem_filter, List.mem_range'_1] at hd
  refine ⟨by simpa using hd.2, hd.1.1, by omega⟩

theorem getD_mem_of_lt {l : List Nat} {i : Nat} (h : i < l.length) : l.getD i 0 ∈ l := by
  rw [List.getD_eq_getElem?_getD, List.getElem?_eq_getElem h]
  exact List.getElem_mem h

/-! ## Kind-1 resolution -/

theorem parse1_ok_inv (s : String) (off dow : Int) (wp : List Char)
    (h : parse1 s = .ok (off, dow, wp)) :
    0 ≤ dow ∧ dow ≤ 4 ∧ (wp = ['1'] ∨ wp = ['2'] ∨ wp = ['3'] ∨ wp = ['L']) := by
  unfold parse1 at h
  split at h
  · split at h
    · exact absurd h (by simp)
    · split at h
      · exact absurd h (by simp)
      · split at h
        · exact absurd h (by simp)
        · split at h
          · exact absurd h (by simp)
          · rename_i dowRaw hdow hrange hwp
            simp only [Except.ok.injEq, Prod.mk.injEq] at h
            obtain ⟨-, hd, hw⟩ := h
            rw [← hd, ← hw]
            refine ⟨by omega, by omega, by tauto⟩
  · exact absurd h (by simp)

/-- After a successful parse, the `query_type == 1` branch of
`get_target_date` computes its result from the occurrence list
`weekdayDays` of the shifted target month. -/
theorem k1_resolve (d : SimpleDate) (s : String) (off dow : Int) (wp : List Char)
    (h : parse1 s = .ok (off, dow, wp)) :
    get_target_date d s 1 =
      (if wp = ['L'] then
        match (weekdayDays (get_adjusted_year_month d.year d.month off).1
            (get_adjusted_year_month d.year d.month off).2 dow.toNat).getLast? with
        | some v => .ok ⟨(get_adjusted_year_month d.year d.month off).1,
            (get_adjusted_year_month d.year d.month off).2, v⟩
        | none => .error .indexError
      else if digitsVal wp - 1 <
          (weekdayDays (get_adjusted_year_month d.year d.month off).1
            (get_adjusted_year_month d.year d.month off).2 dow.toNat).length then
        .ok ⟨(get_adjusted_year_month d.year d.month off).1,
          (get_adjusted_year_month d.year d.month off).2,
          (weekdayDays (get_adjusted_year_month d.year d.month off).1
            (get_adjusted_year_month d.year d.month off).2 dow.toNat).getD
            (digitsVal wp - 1) 0⟩
      else
        match (weekdayDays (get_adjusted_year_month d.year d.month off).1
            (get_adjusted_year_month d.year d.month off).2 dow.toNat).getLast? with
        | some v => .ok ⟨(get_adjusted_year_month d.year d.month off).1,
            (get_adjusted_year_month d.year d.month off).2, v⟩
        | none => .error .indexError) := by
  obtain ⟨hd0, hd4, -⟩ := parse1_ok_inv s off dow wp h
  have hb := get_adjusted_year_month_month_bounds d.year d.month off
  have h7 : dow.toNat < 7 := by omega
  have hqt : ¬¬((1 : Int) = 1 ∨ (1 : Int) = 2) := by norm_num
  unfold get_target_date
  rw [if_neg hqt, if_pos (show (1 : Int) = 1 from rfl), h]
  dsimp only
  rw [colScan_monthWeeks_eq _ _ _ hb.1 hb.2 h7]

/-- C1: for every reference date and every successfully parsed kind-1
pattern, `get_target_date` returns a date whose `(year, month)` is the
month-shift of the reference `(year, month)` by the pattern's offset, and
whose weekday is the requested one (`dow` is the code's 0-based
`day_of_week`, i.e. the requested weekday 1..5 minus 1). -/
theorem c1_kind1_weekday_and_target_month (d : SimpleDate) (s : String)
    (off dow : Int) (wp : List Char) (h : parse1 s = .ok (off, dow, wp)) :
    ∃ r : SimpleDate, get_target_date d s 1 = .ok r ∧
      r.year = (get_adjusted_year_month d.year d.month off).1 ∧
      r.month = (get_adjusted_year_month d.year d.month off).2 ∧
      ((dayOfWeek r.year r.month r.day : Int) = dow) := by
  obtain ⟨hd0, hd4, hwp⟩ := parse1_ok_inv s off dow wp h
  have hb := get_adjusted_year_month_month_bounds d.year d.month off
  have h7 : dow.toNat < 7 := by omega
  have hne := weekdayDays_ne_nil (get_adjusted_year_month d.year d.month off).1
    (get_adjusted_year_month d.year d.month off).2 dow.toNat hb.1 hb.2 h7
  have hlen := weekdayDays_length (get_adjusted_year_month d.year d.month off).1
    (get_adjusted_year_month d.year d.month off).2 dow.toNat hb.1 hb.2 h7
  rw [k1_resolve d s off dow wp h]
  by_cases hL : wp = ['L']
  · rw [if_pos hL, List.getLast?_eq_getLast _ hne]
    refine ⟨_, rfl, rfl, rfl, ?_⟩
    have hmem := weekdayDays_mem _ _ _ _ (List.getLast_mem hne)
    rw [hmem.1]
    omega
  · rw [if_neg hL]
    have hdig : digitsVal wp = 1 ∨ digitsVal wp = 2 ∨ digitsVal wp = 3 := by
      rcases hwp with h1 | h1 | h1 | h1
      · rw [h1]; left; decide
      · rw [h1]; right; left; decide
      · rw [h1]; right; right; decide
      · exact absurd h1 hL
    have hidx : digitsVal wp - 1 <
        (weekdayDays (get_adjusted_year_month d.year d.month off).1
          (get_adjusted_year_month d.year d.month off).2 dow.toNat).length := by omega
    rw [if_pos hidx]
    refine ⟨_, rfl, rfl, rfl, ?_⟩
    have hmem := weekdayDays_mem _ _ _ _ (getD_mem_of_lt hidx)
    rw [hmem.1]
    omega

theorem c1_kind1_weekday_and_target_month_witness :
    parse1 ("0/1/1") = .ok (0, 0, ['1']) ∧
    ∃ r : SimpleDate, get_target_date ⟨2024, 11, 20⟩ ("0/1/1") 1 = .ok r ∧
      r.year = (get_adjusted_year_month 2024 11 0).1 ∧
      r.month = (get_adjusted_year_month 2024 11 0).2 ∧
      ((dayOfWeek r.year r.month r.day : Int) = 0) :=
  ⟨by decide, c1_kind1_weekday_and_target_month ⟨2024, 11, 20⟩ ("0/1/1") 0 0 ['1'] (by decide)⟩

/-- C5: for every normalized target month, the grid column scan for any
weekday column Monday..Friday has length 4 or 5 and is strictly
ascending; consequently for ordinals 1, 2, 3 the 0-based index is always
in range, so the fallback-to-last branch is unreachable for valid kind-1
patterns. -/
theorem c5_occurrences_4_or_5_sorted (y m : Int) (i : Nat)
    (h1 : 1 ≤ m) (h2 : m ≤ 12) (hi : i < 5) :
    ((colScan (monthWeeks y m) i).length = 4 ∨ (colScan (monthWeeks y m) i).length = 5) ∧
    List.Sorted (· < ·) (colScan (monthWeeks y m) i) ∧
    (∀ k : Nat, k = 1 ∨ k = 2 ∨ k = 3 → k - 1 < (colScan (monthWeeks y m) i).length) := by
  have hi7 : i < 7 := by omega
  rw [colScan_monthWeeks_eq y m i h1 h2 hi7]
  have hlen := weekdayDays_length y m i h1 h2 hi7
  refine ⟨hlen, weekdayDays_sorted y m i, ?_⟩
  intro k hk
  omega

theorem c5_occurrences_4_or_5_sorted_witness :
    ((1 : Int) ≤ 11 ∧ (11 : Int) ≤ 12 ∧ 0 < 5) ∧
    (((colScan (monthWeeks 2024 11) 0).length = 4 ∨
        (colScan (monthWeeks 2024 11) 0).length = 5) ∧
      List.Sorted (· < ·) (colScan (monthWeeks 2024 11) 0) ∧
      (∀ k : Nat, k = 1 ∨ k = 2 ∨ k = 3 → k - 1 < (colScan (monthWeeks 2024 11) 0).length)) :=
  ⟨⟨by norm_num, by norm_num, by norm_num⟩,
    c5_occurrences_4_or_5_sorted 2024 11 0 (by norm_num) (by norm_num) (by norm_num)⟩

/-- C4: for a successfully parsed kind-1 pattern with a numeric ordinal,
the resolver returns `occurrences[idx]` when `idx < len(occurrences)` and
`occurrences[-1]` otherwise; and whenever the occurrence list has fewer
than three elements, an ordinal-3 pattern resolves to the same date as
the corresponding ordinal-L pattern. -/
theorem c4_numeric_ordinal_fallback (d : SimpleDate) (s s3 sL : String)
    (off dow : Int) (wp : List Char)
    (h : parse1 s = .ok (off, dow, wp)) (hL : wp ≠ ['L'])
    (h3 : parse1 s3 = .ok (off, dow, ['3']))
    (hLp : parse1 sL = .ok (off, dow, ['L'])) :
    (digitsVal wp - 1 <
        (weekdayDays (get_adjusted_year_month d.year d.month off).1
          (get_adjusted_year_month d.year d.month off).2 dow.toNat).length →
      get_target_date d s 1 = .ok ⟨(get_adjusted_year_month d.year d.month off).1,
        (get_adjusted_year_month d.year d.month off).2,
        (weekdayDays (get_adjusted_year_month d.year d.month off).1
          (get_adjusted_year_month d.year d.month off).2 dow.toNat).getD
          (digitsVal wp - 1) 0⟩) ∧
    (¬ digitsVal wp - 1 <
        (weekdayDays (get_adjusted_year_month d.year d.month off).1
          (get_adjusted_year_month d.year d.month off).2 dow.toNat).length →
      get_target_date d s 1 = .ok ⟨(get_adjusted_year_month d.year d.month off).1,
        (get_adjusted_year_month d.year d.month off).2,
        (weekdayDays (get_adjusted_year_month d.year d.month off).1
          (get_adjusted_year_month d.year d.month off).2 dow.toNat).getLastD 0⟩) ∧
    ((weekdayDays (get_adjusted_year_month d.year d.month off).1
        (get_adjusted_year_month d.year d.month off).2 dow.toNat).length < 3 →
      get_target_date d s3 1 = get_target_date d sL 1) := by
  obtain ⟨hd0, hd4, hwp⟩ := parse1_ok_inv s off dow wp h
  have hb := get_adjusted_year_month_month_bounds d.year d.month off
  have h7 : dow.toNat < 7 := by omega
  have hlen := weekdayDays_length (get_adjusted_year_month d.year d.month off).1
    (get_adjusted_year_month d.year d.month off).2 dow.toNat hb.1 hb.2 h7
  refine ⟨?_, ?_, ?_⟩
  · intro hidx
    rw [k1_resolve d s off dow wp h, if_neg hL, if_pos hidx]
  · intro hn
    have hdig : digitsVal wp = 1 ∨ digitsVal wp = 2 ∨ digitsVal wp = 3 := by
      rcases hwp with h1 | h1 | h1 | h1
      · rw [h1]; left; decide
      · rw [h1]; right; left; decide
      · rw [h1]; right; right; decide
      · exact absurd h1 hL
    exact absurd (by omega) hn
  · intro hsmall
    rw [k1_resolve d s3 off dow ['3'] h3, k1_resolve d sL off dow ['L'] hLp]
    have hne3 : (['3'] : List Char) ≠ ['L'] := by decide
    have hnidx : ¬ digitsVal ['3'] - 1 <
        (weekdayDays (get_adjusted_year_month d.year d.month off).1
          (get_adjusted_year_month d.year d.month off).2 dow.toNat).length := by
      have hdig3 : digitsVal ['3'] = 3 := by decide
      omega
    rw [if_neg hne3, if_pos rfl, if_neg hnidx]

theorem c4_numeric_ordinal_fallback_witness :
    (parse1 ("0/1/1") = .ok (0, 0, ['1']) ∧ (['1'] : List Char) ≠ ['L'] ∧
      parse1 ("0/1/3") = .ok (0, 0, ['3']) ∧ parse1 ("0/1/L") = .ok (0, 0, ['L'])) ∧
    ((digitsVal ['1'] - 1 <
        (weekdayDays (get_adjusted_year_month 2024 11 0).1
          (get_adjusted_year_month 2024 11 0).2 (0 : Int).toNat).length →
      get_target_date ⟨2024, 11, 20⟩ ("0/1/1") 1 =
        .ok ⟨(get_adjusted_year_month 2024 11 0).1, (get_adjusted_year_month 2024 11 0).2,
          (weekdayDays (get_adjusted_year_month 2024 11 0).1
            (get_adjusted_year_month 2024 11 0).2 (0 : Int).toNat).getD
            (digitsVal ['1'] - 1) 0⟩) ∧
    (¬ digitsVal ['1'] - 1 <
        (weekdayDays (get_adjusted_year_month 2024 11 0).1
          (get_adjusted_year_month 2024 11 0).2 (0 : Int).toNat).length →
      get_target_date ⟨2024, 11, 20⟩ ("0/1/1") 1 =
        .ok ⟨(get_adjusted_year_month 2024 11 0).1, (get_adjusted_year_month 2024 11 0).2,
          (weekdayDays (get_adjusted_year_month 2024 11 0).1
            (get_adjusted_year_month 2024 11 0).2 (0 : Int).toNat).getLastD 0⟩) ∧
    ((weekdayDays (get_adjusted_year_month 2024 11 0).1
        (get_adjusted_year_month 2024 11 0).2 (0 : Int).toNat).length < 3 →
      get_target_date ⟨2024, 11, 20⟩ ("0/1/3") 1 =
        get_target_date ⟨2024, 11, 20⟩ ("0/1/L") 1)) :=
  ⟨⟨by decide, by decide, by decide, by decide⟩,
    c4_numeric_ordinal_fallback ⟨2024, 11, 20⟩ ("0/1/1") ("0/1/3") ("0/1/L") 0 0 ['1']
      (by decide) (by decide) (by decide) (by decide)⟩

/-! ## Kind-2 resolution -/

/-- After a successful parse, the `query_type == 2` branch of
`get_target_date` returns day 1 (edge `F`) or the month's day count
(edge `L`) of the shifted target month. -/
theorem k2_resolve (d : SimpleDate) (s : String) (off : Int) (isF : Bool)
    (h : parse2 s = .ok (off, isF)) :
    get_target_date d s 2 = .ok ⟨(get_adjusted_year_month d.year d.month off).1,
      (get_adjusted_year_month d.year d.month off).2,
      if isF then 1
      else monthLength (get_adjusted_year_month d.year d.month off).1
        (get_adjusted_year_month d.year d.month off).2⟩ := by
  have hqt : ¬¬((2 : Int) = 1 ∨ (2 : Int) = 2) := by norm_num
  have hq1 : ¬(2 : Int) = 1 := by norm_num
  unfold get_target_date
  rw [if_neg hqt, if_neg hq1, h]
  dsimp only
  cases isF
  · rw [if_neg (by simp), if_neg (by simp)]
  · rw [if_pos rfl, if_pos rfl]

/-- C2: for every reference date and every successfully parsed kind-2
pattern, edge `F` resolves to day 1 and edge `L` to the last calendar day
(the month's day count, one of 28/29/30/31, 29 exactly in leap-year
Februaries) of the shifted target month. -/
theorem c2_kind2_first_last_day (d : SimpleDate) (s : String) (off : Int) (isF : Bool)
    (h : parse2 s = .ok (off, isF)) :
    get_target_date d s 2 = .ok ⟨(get_adjusted_year_month d.year d.month off).1,
      (get_adjusted_year_month d.year d.month off).2,
      if isF then 1
      else monthLength (get_adjusted_year_month d.year d.month off).1
        (get_adjusted_year_month d.year d.month off).2⟩ ∧
    (monthLength (get_adjusted_year_month d.year d.month off).1
        (get_adjusted_year_month d.year d.month off).2 = 28 ∨
      monthLength (get_adjusted_year_month d.year d.month off).1
        (get_adjusted_year_month d.year d.month off).2 = 29 ∨
      monthLength (get_adjusted_year_month d.year d.month off).1
        (get_adjusted_year_month d.year d.month off).2 = 30 ∨
      monthLength (get_adjusted_year_month d.year d.month off).1
        (get_adjusted_year_month d.year d.month off).2 = 31) ∧
    ((get_adjusted_year_month d.year d.month off).2 = 2 →
      monthLength (get_adjusted_year_month d.year d.month off).1
          (get_adjusted_year_month d.year d.month off).2 =
        if isLeapYear (get_adjusted_year_month d.year d.month off).1 then 29 else 28) := by
  have hb := get_adjusted_year_month_month_bounds d.year d.month off
  refine ⟨k2_resolve d s off isF h, monthLength_mem _ _ hb.1 hb.2, ?_⟩
  intro h2
  rw [h2]
  norm_num [monthLength]

theorem c2_kind2_first_last_day_witness :
    parse2 ("1L") = .ok (1, false) ∧
    (get_target_date ⟨2024, 11, 20⟩ ("1L") 2 = .ok ⟨(get_adjusted_year_month 2024 11 1).1,
        (get_adjusted_year_month 2024 11 1).2,
        if false then 1
        else monthLength (get_adjusted_year_month 2024 11 1).1
          (get_adjusted_year_month 2024 11 1).2⟩ ∧
      (monthLength (get_adjusted_year_month 2024 11 1).1
          (get_adjusted_year_month 2024 11 1).2 = 28 ∨
        monthLength (get_adjusted_year_month 2024 11 1).1
          (get_adjusted_year_month 2024 11 1).2 = 29 ∨
        monthLength (get_adjusted_year_month 2024 11 1).1
          (get_adjusted_year_month 2024 11 1).2 = 30 ∨
        monthLength (get_adjusted_year_month 2024 11 1).1
          (get_adjusted_year_month 2024 11 1).2 = 31) ∧
      ((get_adjusted_year_month 2024 11 1).2 = 2 →
        monthLength (get_adjusted_year_month 2024 11 1).1
            (get_adjusted_year_month 2024 11 1).2 =
          if isLeapYear (get_adjusted_year_month 2024 11 1).1 then 29 else 28)) :=
  ⟨by decide, c2_kind2_first_last_day ⟨2024, 11, 20⟩ ("1L") 1 false (by decide)⟩

/-! ## Error-handling characterization, kind 1 -/

theorem k1_ok_exists (d : SimpleDate) (s : String) (off dow : Int) (wp : List Char)
    (h : parse1 s = .ok (off, dow, wp)) :
    ∃ r : SimpleDate, get_target_date d s 1 = .ok r := by
  obtain ⟨hd0, hd4, hwp⟩ := parse1_ok_inv s off dow wp h
  have hb := get_adjusted_year_month_month_bounds d.year d.month off
  have h7 : dow.toNat < 7 := by omega
  have hne := weekdayDays_ne_nil (get_adjusted_year_month d.year d.month off).1
    (get_adjusted_year_month d.year d.month off).2 dow.toNat hb.1 hb.2 h7
  have hlen := weekdayDays_length (get_adjusted_year_month d.year d.month off).1
    (get_adjusted_year_month d.year d.month off).2 dow.toNat hb.1 hb.2 h7
  rw [k1_resolve d s off dow wp h]
  by_cases hL : wp = ['L']
  · rw [if_pos hL, List.getLast?_eq_getLast _ hne]
    exact ⟨_, rfl⟩
  · rw [if_neg hL]
    have hdig : digitsVal wp = 1 ∨ digitsVal wp = 2 ∨ digitsVal wp = 3 := by
      rcases hwp with h1 | h1 | h1 | h1
      · rw [h1]; left; decide
      · rw [h1]; right; left; decide
      · rw [h1]; right; right; decide
      · exact absurd h1 hL
    have hidx : digitsVal wp - 1 <
        (weekdayDays (get_adjusted_year_month d.year d.month off).1
          (get_adjusted_year_month d.year d.month off).2 dow.toNat).length := by omega
    rw [if_pos hidx]
    exact ⟨_, rfl⟩

/-- `get_target_date` with kind 1 fails exactly when the parsing/validation
section fails, with the same error kind. -/
theorem gtd1_error_iff (d : SimpleDate) (s : String) (e : ErrKind) :
    get_target_date d s 1 = .error e ↔ parse1 s = .error e := by
  cases hp : parse1 s with
  | error e' =>
    have hg : get_target_date d s 1 = .error e' := by
      have hqt : ¬¬((1 : Int) = 1 ∨ (1 : Int) = 2) := by norm_num
      unfold get_target_date
      rw [if_neg hqt, if_pos (show (1 : Int) = 1 from rfl), hp]
    rw [hg]
    simp
  | ok v =>
    obtain ⟨off, dow, wp⟩ := v
    obtain ⟨r, hr⟩ := k1_ok_exists d s off dow wp hp
    rw [hr]
    simp

theorem gtd1_ok_iff (d : SimpleDate) (s : String) :
    (∃ r : SimpleDate, get_target_date d s 1 = .ok r) ↔
      (∃ v, parse1 s = .ok v) := by
  cases hp : parse1 s with
  | error e =>
    have hg : get_target_date d s 1 = .error e := (gtd1_error_iff d s e).mpr hp
    rw [hg]
    simp
  | ok v =>
    obtain ⟨off, dow, wp⟩ := v
    exact iff_of_true (k1_ok_exists d s off dow wp hp) ⟨_, rfl⟩

theorem parse1_format_of_bad_split (s : String)
    (h : (splitChar '/' s.data).length ≠ 3) : parse1 s = .error .formatError := by
  unfold parse1
  split
  · rename_i x y z heq
    rw [heq] at h
    simp at h
  · rfl

/-- Full characterization of the failure behaviour of the kind-1 parsing
section of `get_target_date`. -/
theorem parse1_cases (s : String) :
    (parse1 s = .error .formatError ↔ (splitChar '/' s.data).length ≠ 3) ∧
    (parse1 s = .error .parseError ↔ ∃ a b c, splitChar '/' s.data = [a, b, c] ∧
      (parseIntChars a = none ∨ (∃ k, parseIntChars a = some k ∧ parseIntChars b = none))) ∧
    (parse1 s = .error .validationError ↔ ∃ a b c ka kb,
      splitChar '/' s.data = [a, b, c] ∧
      parseIntChars a = some ka ∧ parseIntChars b = some kb ∧
      (¬(1 ≤ kb ∧ kb ≤ 5) ∨ (c ≠ ['1'] ∧ c ≠ ['2'] ∧ c ≠ ['3'] ∧ c ≠ ['L']))) ∧
    ((∃ v, parse1 s = .ok v) ↔ ∃ a b c ka kb,
      splitChar '/' s.data = [a, b, c] ∧
      parseIntChars a = some ka ∧ parseIntChars b = some kb ∧
      1 ≤ kb ∧ kb ≤ 5 ∧ (c = ['1'] ∨ c = ['2'] ∨ c = ['3'] ∨ c = ['L'])) := by
  by_cases hlen : (splitChar '/' s.data).length = 3
  · obtain ⟨a, b, c, hsp⟩ := List.length_eq_three.mp hlen
    rcases hmo : parseIntChars a with - | ka
    · have hp : parse1 s = .error .parseError := by
        simp only [parse1, hsp, hmo]
      refine ⟨iff_of_false (by rw [hp]; simp) (fun hl => hl hlen), ?_, ?_, ?_⟩
      · exact iff_of_true hp ⟨a, b, c, hsp, Or.inl hmo⟩
      · refine iff_of_false (by rw [hp]; simp) ?_
        rintro ⟨x, y, z, ka, kb, heq, hx, -, -⟩
        rw [hsp] at heq
        simp only [List.cons.injEq, and_true] at heq
        obtain ⟨rfl, rfl, rfl⟩ := heq
        rw [hmo] at hx
        exact absurd hx (by simp)
      · refine iff_of_false ?_ ?_
        · rintro ⟨v, hv⟩
          rw [hp] at hv
          exact absurd hv (by simp)
        · rintro ⟨x, y, z, ka, kb, heq, hx, -⟩
          rw [hsp] at heq
          simp only [List.cons.injEq, and_true] at heq
          obtain ⟨rfl, rfl, rfl⟩ := heq
          rw [hmo] at hx
          exact absurd hx (by simp)
    · rcases hdw : parseIntChars b with - | kb
      · have hp : parse1 s = .error .parseError := by
          simp only [parse1, hsp, hmo, hdw]
        refine ⟨iff_of_false (by rw [hp]; simp) (fun hl => hl hlen), ?_, ?_, ?_⟩
        · exact iff_of_true hp ⟨a, b, c, hsp, Or.inr ⟨ka, hmo, hdw⟩⟩
        · refine iff_of_false (by rw [hp]; simp) ?_
          rintro ⟨x, y, z, ka', kb', heq, -, hy, -⟩
          rw [hsp] at heq
          simp only [List.cons.injEq, and_true] at heq
          obtain ⟨rfl, rfl, rfl⟩ := heq
          rw [hdw] at hy
          exact absurd hy (by simp)
        · refine iff_of_false ?_ ?_
          · rintro ⟨v, hv⟩
            rw [hp] at hv
            exact absurd hv (by simp)
          · rintro ⟨x, y, z, ka', kb', heq, -, hy, -⟩
            rw [hsp] at heq
            simp only [List.cons.injEq, and_true] at heq
            obtain ⟨rfl, rfl, rfl⟩ := heq
            rw [hdw] at hy
            exact absurd hy (by simp)
      · by_cases hr : 1 ≤ kb ∧ kb ≤ 5
        · by_cases htok : c ≠ ['1'] ∧ c ≠ ['2'] ∧ c ≠ ['3'] ∧ c ≠ ['L']
          · have hp : parse1 s = .error .validationError := by
              simp only [parse1, hsp, hmo, hdw]
              rw [if_neg (show ¬¬(1 ≤ kb - 1 + 1 ∧ kb - 1 + 1 ≤ 5) by omega), if_pos htok]
            refine ⟨iff_of_false (by rw [hp]; simp) (fun hl => hl hlen), ?_, ?_, ?_⟩
            · refine iff_of_false (by rw [hp]; simp) ?_
              rintro ⟨x, y, z, heq, hcase⟩
              rw [hsp] at heq
              simp only [List.cons.injEq, and_true] at heq
              obtain ⟨rfl, rfl, rfl⟩ := heq
              rcases hcase with hx | ⟨k, -, hy⟩
              · rw [hmo] at hx
                exact absurd hx (by simp)
              · rw [hdw] at hy
                exact absurd hy (by simp)
            · refine iff_of_true hp ⟨a, b, c, ka, kb, hsp, hmo, hdw, Or.inr htok⟩
            · refine iff_of_false ?_ ?_
              · rintro ⟨v, hv⟩
                rw [hp] at hv
                exact absurd hv (by simp)
              · rintro ⟨x, y, z, ka', kb', heq, hx, hy, -, -, hc⟩
                rw [hsp] at heq
                simp only [List.cons.injEq, and_true] at heq
                obtain ⟨rfl, rfl, rfl⟩ := heq
                tauto
          · have hp : parse1 s = .ok (ka, kb - 1, c) := by
              simp only [parse1, hsp, hmo, hdw]
              rw [if_neg (show ¬¬(1 ≤ kb - 1 + 1 ∧ kb - 1 + 1 ≤ 5) by omega), if_neg htok]
            have htok' : c = ['1'] ∨ c = ['2'] ∨ c = ['3'] ∨ c = ['L'] := by tauto
            refine ⟨iff_of_false (by rw [hp]; simp) (fun hl => hl hlen), ?_, ?_, ?_⟩
            · refine iff_of_false (by rw [hp]; simp) ?_
              rintro ⟨x, y, z, heq, hcase⟩
              rw [hsp] at heq
              simp only [List.cons.injEq, and_true] at heq
              obtain ⟨rfl, rfl, rfl⟩ := heq
              rcases hcase with hx | ⟨k, -, hy⟩
              · rw [hmo] at hx
                exact absurd hx (by simp)
              · rw [hdw] at hy
                exact absurd hy (by simp)
            · refine iff_of_false (by rw [hp]; simp) ?_
              rintro ⟨x, y, z, ka', kb', heq, hx, hy, hbad⟩
              rw [hsp] at heq
              simp only [List.cons.injEq, and_true] at heq
              obtain ⟨rfl, rfl, rfl⟩ := heq
              rw [hmo] at hx
              rw [hdw] at hy
              simp only [Option.some.injEq] at hx hy
              rcases hbad with hb5 | hbadtok
              · omega
              · tauto
            · exact iff_of_true ⟨_, hp⟩ ⟨a, b, c, ka, kb, hsp, hmo, hdw, hr.1, hr.2, htok'⟩
        · have hp : parse1 s = .error .validationError := by
            simp only [parse1, hsp, hmo, hdw]
            rw [if_pos (show ¬(1 ≤ kb - 1 + 1 ∧ kb - 1 + 1 ≤ 5) by omega)]
          refine ⟨iff_of_false (by rw [hp]; simp) (fun hl => hl hlen), ?_, ?_, ?_⟩
          · refine iff_of_false (by rw [hp]; simp) ?_
            rintro ⟨x, y, z, heq, hcase⟩
            rw [hsp] at heq
            simp only [List.cons.injEq, and_true] at heq
            obtain ⟨rfl, rfl, rfl⟩ := heq
            rcases hcase with hx | ⟨k, -, hy⟩
            · rw [hmo] at hx
              exact absurd hx (by simp)
            · rw [hdw] at hy
              exact absurd hy (by simp)
          · exact iff_of_true hp ⟨a, b, c, ka, kb, hsp, hmo, hdw, Or.inl hr⟩
          · refine iff_of_false ?_ ?_
            · rintro ⟨v, hv⟩
              rw [hp] at hv
              exact absurd hv (by simp)
            · rintro ⟨x, y, z, ka', kb', heq, hx, hy, h1, h5, -⟩
              rw [hsp] at heq
              simp only [List.cons.injEq, and_true] at heq
              obtain ⟨rfl, rfl, rfl⟩ := heq
              rw [hdw] at hy
              simp only [Option.some.injEq] at hy
              omega
  · have hp := parse1_format_of_bad_split s hlen
    refine ⟨iff_of_true hp hlen, ?_, ?_, ?_⟩
    · refine iff_of_false (by rw [hp]; simp) ?_
      rintro ⟨x, y, z, heq, -⟩
      exact hlen (by rw [heq]; rfl)
    · refine iff_of_false (by rw [hp]; simp) ?_
      rintro ⟨x, y, z, ka, kb, heq, -⟩
      exact hlen (by rw [heq]; rfl)
    · refine iff_of_false ?_ ?_
      · rintro ⟨v, hv⟩
        rw [hp] at hv
        exact absurd hv (by simp)
      · rintro ⟨x, y, z, ka, kb, heq, -⟩
        exact hlen (by rw [heq]; rfl)

/-- C7 (amended): with kind 1, `get_target_date` fails, eagerly before any
date arithmetic, exactly when the pattern does not split into exactly three
slash-separated fields (`FormatError`), the month-offset or the weekday
field is not integer-parseable (`ParseError`), the weekday parses to an
integer outside 1..5 (`ValidationError`), or the ordinal field is not one
of `1`, `2`, `3`, `L` (`ValidationError`); every well-formed kind-1 pattern
succeeds. -/
theorem c7_kind1_error_handling (d : SimpleDate) (s : String) :
    (get_target_date d s 1 = .error .formatError ↔
      (splitChar '/' s.data).length ≠ 3) ∧
    (get_target_date d s 1 = .error .parseError ↔ ∃ a b c,
      splitChar '/' s.data = [a, b, c] ∧
      (parseIntChars a = none ∨ (∃ k, parseIntChars a = some k ∧ parseIntChars b = none))) ∧
    (get_target_date d s 1 = .error .validationError ↔ ∃ a b c ka kb,
      splitChar '/' s.data = [a, b, c] ∧
      parseIntChars a = some ka ∧ parseIntChars b = some kb ∧
      (¬(1 ≤ kb ∧ kb ≤ 5) ∨ (c ≠ ['1'] ∧ c ≠ ['2'] ∧ c ≠ ['3'] ∧ c ≠ ['L']))) ∧
    ((∃ r : SimpleDate, get_target_date d s 1 = .ok r) ↔ ∃ a b c ka kb,
      splitChar '/' s.data = [a, b, c] ∧
      parseIntChars a = some ka ∧ parseIntChars b = some kb ∧
      1 ≤ kb ∧ kb ≤ 5 ∧ (c = ['1'] ∨ c = ['2'] ∨ c = ['3'] ∨ c = ['L'])) := by
  obtain ⟨h1, h2, h3, h4⟩ := parse1_cases s
  exact ⟨(gtd1_error_iff d s _).trans h1, (gtd1_error_iff d s _).trans h2,
    (gtd1_error_iff d s _).trans h3, (gtd1_ok_iff d s).trans h4⟩

/-- C7 counterexample to the claim as stated: on the kind-1 pattern
`0/x/1` the code fails (with a parse error on the weekday field), although
none of the claim's four listed failure conditions holds — the pattern has
exactly three fields, the month offset parses, the weekday field is not
"an integer outside 1..5" (it does not parse as an integer at all), and
the ordinal token is `1`. -/
theorem c7_kind1_error_handling_counterexample :
    get_target_date ⟨2024, 11, 20⟩ ("0/x/1") 1 = .error .parseError ∧
    splitChar '/' ("0/x/1").data = [['0'], ['x'], ['1']] ∧
    ¬((splitChar '/' ("0/x/1").data).length ≠ 3 ∨
      parseIntChars ['0'] = none ∨
      (∃ k : Int, parseIntChars ['x'] = some k ∧ ¬(1 ≤ k ∧ k ≤ 5)) ∨
      ¬(['1'] = (['1'] : List Char) ∨ ['1'] = (['2'] : List Char) ∨
        ['1'] = (['3'] : List Char) ∨ ['1'] = (['L'] : List Char))) := by
  refine ⟨by decide, by decide, ?_⟩
  rintro (hne3 | hmo | ⟨k, hk, -⟩ | htok)
  · exact hne3 (by decide)
  · exact absurd hmo (by decide)
  · rw [show parseIntChars ['x'] = none from by decide] at hk
    exact absurd hk (by simp)
  · exact htok (Or.inl rfl)

/-! ## Error-handling characterization, kind 2 -/

theorem gtd2_error_iff (d : SimpleDate) (s : String) (e : ErrKind) :
    get_target_date d s 2 = .error e ↔ parse2 s = .error e := by
  cases hp : parse2 s with
  | error e' =>
    have hg : get_target_date d s 2 = .error e' := by
      have hqt : ¬¬((2 : Int) = 1 ∨ (2 : Int) = 2) := by norm_num
      have hq1 : ¬(2 : Int) = 1 := by norm_num
      unfold get_target_date
      rw [if_neg hqt, if_neg hq1, hp]
    rw [hg]
    simp
  | ok v =>
    obtain ⟨off, isF⟩ := v
    rw [k2_resolve d s off isF hp]
    simp

theorem gtd2_ok_iff (d : SimpleDate) (s : String) :
    (∃ r : SimpleDate, get_target_date d s 2 = .ok r) ↔ (∃ v, parse2 s = .ok v) := by
  cases hp : parse2 s with
  | error e =>
    have hg : get_target_date d s 2 = .error e := (gtd2_error_iff d s e).mpr hp
    rw [hg]
    simp
  | ok v =>
    obtain ⟨off, isF⟩ := v
    exact iff_of_true ⟨_, k2_resolve d s off isF hp⟩ ⟨_, rfl⟩

/-- Full characterization of the failure behaviour of the kind-2 parsing
section of `get_target_date`. -/
theorem parse2_cases (s : String) :
    (parse2 s = .error .formatError ↔
      (s.data = [] ∨ (s.data.getLast? ≠ some 'F' ∧ s.data.getLast? ≠ some 'L'))) ∧
    (parse2 s = .error .parseError ↔
      ((s.data.getLast? = some 'F' ∨ s.data.getLast? = some 'L') ∧
        parseIntChars s.data.dropLast = none)) ∧
    ((∃ v, parse2 s = .ok v) ↔
      ((s.data.getLast? = some 'F' ∨ s.data.getLast? = some 'L') ∧
        ∃ k, parseIntChars s.data.dropLast = some k)) := by
  by_cases hFL : s.data.getLast? = some 'F' ∨ s.data.getLast? = some 'L'
  · rcases hpi : parseIntChars s.data.dropLast with - | k
    · have hp : parse2 s = .error .parseError := by
        unfold parse2
        rw [if_pos hFL, hpi]
      refine ⟨iff_of_false (by rw [hp]; simp) ?_, iff_of_true hp ⟨hFL, rfl⟩,
        iff_of_false ?_ ?_⟩
      · rintro (hnil | ⟨hF, hL⟩)
        · rcases hFL with h | h <;> (rw [hnil] at h; exact absurd h (by simp))
        · tauto
      · rintro ⟨v, hv⟩
        rw [hp] at hv
        exact absurd hv (by simp)
      · rintro ⟨-, k, hk⟩
        exact absurd hk (by simp)
    · have hp : parse2 s = .ok (k, decide (s.data.getLast? = some 'F')) := by
        unfold parse2
        rw [if_pos hFL, hpi]
      refine ⟨iff_of_false (by rw [hp]; simp) ?_, iff_of_false (by rw [hp]; simp) ?_,
        iff_of_true ⟨_, hp⟩ ⟨hFL, k, rfl⟩⟩
      · rintro (hnil | ⟨hF, hL⟩)
        · rcases hFL with h | h <;> (rw [hnil] at h; exact absurd h (by simp))
        · tauto
      · rintro ⟨-, hnone⟩
        exact absurd hnone (by simp)
  · have hp : parse2 s = .error .formatError := by
      unfold parse2
      rw [if_neg hFL]
    push_neg at hFL
    refine ⟨iff_of_true hp (Or.inr hFL), iff_of_false (by rw [hp]; simp) ?_,
      iff_of_false ?_ ?_⟩
    · rintro ⟨hor, -⟩
      tauto
    · rintro ⟨v, hv⟩
      rw [hp] at hv
      exact absurd hv (by simp)
    · rintro ⟨hor, -⟩
      tauto

/-- C8: with kind 2, `get_target_date` fails, eagerly before any date
arithmetic, exactly when the pattern string is empty or does not end in
`F`/`L` (`FormatError`), or its leading slice is not integer-parseable
(`ParseError`); every well-formed kind-2 pattern succeeds. -/
theorem c8_kind2_error_handling (d : SimpleDate) (s : String) :
    (get_target_date d s 2 = .error .formatError ↔
      (s.data = [] ∨ (s.data.getLast? ≠ some 'F' ∧ s.data.getLast? ≠ some 'L'))) ∧
    (get_target_date d s 2 = .error .parseError ↔
      ((s.data.getLast? = some 'F' ∨ s.data.getLast? = some 'L') ∧
        parseIntChars s.data.dropLast = none)) ∧
    ((∃ r : SimpleDate, get_target_date d s 2 = .ok r) ↔
      ((s.data.getLast? = some 'F' ∨ s.data.getLast? = some 'L') ∧
        ∃ k, parseIntChars s.data.dropLast = some k)) := by
  obtain ⟨h1, h2, h3⟩ := parse2_cases s
  exact ⟨(gtd2_error_iff d s _).trans h1, (gtd2_error_iff d s _).trans h2,
    (gtd2_ok_iff d s).trans h3⟩

/-! ## Concrete scenarios -/

/-- C9: the five concrete scenarios of the specification, with reference
date 2024-11-20. -/
theorem c9_concrete_scenarios :
    get_target_date ⟨2024, 11, 20⟩ ("0/1/1") 1 = .ok ⟨2024, 11, 4⟩ ∧
    get_target_date ⟨2024, 11, 20⟩ ("-1/5/L") 1 = .ok ⟨2024, 10, 25⟩ ∧
    get_target_date ⟨2024, 11, 20⟩ ("-2/3/2") 1 = .ok ⟨2024, 9, 11⟩ ∧
    get_target_date ⟨2024, 11, 20⟩ ("-1F") 2 = .ok ⟨2024, 10, 1⟩ ∧
    get_target_date ⟨2024, 11, 20⟩ ("1L") 2 = .ok ⟨2024, 12, 31⟩ :=
  ⟨by decide, by decide, by decide, by decide, by decide⟩

/-! ## Last-Thursday / last-Friday helpers -/

/-- The February-to-March anchor step: the anchors differ by February's
day count mod 7, in every year class (leap, common, century). -/
theorem anchor_feb_mar (y : Int) :
    monthAnchor y 3 % 7 = (monthAnchor y 2 + monthLength y 2) % 7 := by
  have h3 : monthAnchor y 3 =
      10 + y % 100 + (y % 100) / 4 + (y / 100) / 4 + 5 * (y / 100) + 5 := by
    norm_num [monthAnchor]
  have h2 : monthAnchor y 2 =
      39 + (y - 1) % 100 + ((y - 1) % 100) / 4 + ((y - 1) / 100) / 4 +
        5 * ((y - 1) / 100) + 5 := by
    norm_num [monthAnchor]
  have hL : monthLength y 2 = if isLeapYear y then 29 else 28 := by
    norm_num [monthLength]
  have hleap : isLeapYear y = true ↔ (y % 4 = 0 ∧ (y % 100 ≠ 0 ∨ y % 400 = 0)) := by
    simp [isLeapYear]
  rw [h3, h2, hL]
  by_cases hK : y % 100 = 0
  · have hJ' : (y - 1) / 100 = y / 100 - 1 := by omega
    have hK' : (y - 1) % 100 = 99 := by omega
    have hy4 : y % 4 = 0 := by omega
    have hJ4 : y % 400 = 0 ↔ (y / 100) % 4 = 0 := by omega
    rw [hJ', hK']
    split_ifs with hlf
    · rw [hleap] at hlf
      have h400 : y % 400 = 0 := by tauto
      have hj4 : (y / 100) % 4 = 0 := hJ4.mp h400
      have hq : (y / 100 - 1) / 4 = (y / 100) / 4 - 1 := by omega
      rw [hq]
      omega
    · rw [hleap] at hlf
      have h400 : y % 400 ≠ 0 := by tauto
      have hj4 : (y / 100) % 4 ≠ 0 := fun hc => h400 (hJ4.mpr hc)
      have hq : (y / 100 - 1) / 4 = (y / 100) / 4 := by omega
      rw [hq]
      omega
  · have hJ' : (y - 1) / 100 = y / 100 := by omega
    have hK' : (y - 1) % 100 = y % 100 - 1 := by omega
    rw [hJ', hK']
    split_ifs with hlf
    · rw [hleap] at hlf
      have hk4 : (y % 100) % 4 = 0 := by omega
      have hq : (y % 100 - 1) / 4 = (y % 100) / 4 - 1 := by omega
      rw [hq]
      omega
    · rw [hleap] at hlf
      have hy4 : y % 4 ≠ 0 := by tauto
      have hk4 : (y % 100) % 4 ≠ 0 := by omega
      have hq : (y % 100 - 1) / 4 = (y % 100) / 4 := by omega
      rw [hq]
      omega

/-- Zeller anchors of consecutive months of the same year differ by the
length of the earlier month, mod 7. -/
theorem anchor_succ_month (y m : Int) (h1 : 1 ≤ m) (h2 : m ≤ 11) :
    monthAnchor y (m + 1) % 7 = (monthAnchor y m + monthLength y m) % 7 := by
  interval_cases m
  · norm_num [monthAnchor, monthLength]
    omega
  · exact anchor_feb_mar y
  · norm_num [monthAnchor, monthLength]
    omega
  · norm_num [monthAnchor, monthLength]
    omega
  · norm_num [monthAnchor, monthLength]
    omega
  · norm_num [monthAnchor, monthLength]
    omega
  · norm_num [monthAnchor, monthLength]
    omega
  · norm_num [monthAnchor, monthLength]
    omega
  · norm_num [monthAnchor, monthLength]
    omega
  · norm_num [monthAnchor, monthLength]
    omega
  · norm_num [monthAnchor, monthLength]
    omega

/-- Zeller anchor of January in terms of the previous December. -/
theorem anchor_dec_jan (y : Int) :
    monthAnchor (y + 1) 1 % 7 = (monthAnchor y 12 + 31) % 7 := by
  norm_num [monthAnchor]
  omega

/-- Stepping a valid date one day forward advances the weekday by one,
mod 7 — also across month and year boundaries. -/
theorem dayOfWeek_nextDay (y m : Int) (d : Nat) (h1 : 1 ≤ m) (h2 : m ≤ 12)
    (hd1 : 1 ≤ d) (hd2 : d ≤ monthLength y m) :
    dayOfWeek (nextDay ⟨y, m, d⟩).year (nextDay ⟨y, m, d⟩).month
      (nextDay ⟨y, m, d⟩).day = (dayOfWeek y m d + 1) % 7 := by
  unfold nextDay
  dsimp only
  by_cases hlt : d < monthLength y m
  · rw [if_pos hlt]
    dsimp only
    unfold dayOfWeek
    omega
  · rw [if_neg hlt]
    have hdm : d = monthLength y m := by omega
    by_cases hm12 : m < 12
    · rw [if_pos hm12]
      dsimp only
      have ha := anchor_succ_month y m h1 (by omega)
      rw [hdm]
      unfold dayOfWeek
      omega
    · have hm' : m = 12 := by omega
      subst hm'
      rw [if_neg hm12]
      dsimp only
      have ha := anchor_dec_jan y
      have hL : monthLength y 12 = 31 := by norm_num [monthLength]
      rw [hdm, hL]
      unfold dayOfWeek
      omega

theorem last_thursday_day_bounds (y m : Int) (h1 : 1 ≤ m) (h2 : m ≤ 12) :
    1 ≤ (last_thursday y m).day ∧ (last_thursday y m).day ≤ monthLength y m := by
  have h28 := (monthLength_bounds y m h1 h2).1
  unfold last_thursday dayOfWeek
  dsimp only
  omega

/-- The date computed by `last_thursday` indeed falls on a Thursday
(Python weekday 3). -/
theorem last_thursday_weekday (y m : Int) (h1 : 1 ≤ m) (h2 : m ≤ 12) :
    dayOfWeek y m (last_thursday y m).day = 3 := by
  have h28 := (monthLength_bounds y m h1 h2).1
  unfold last_thursday dayOfWeek
  dsimp only
  omega

/-- C10: `last_friday_of_previous_month` is exactly `last_thursday` of the
previous calendar month plus one day; the returned date always falls on a
Friday (Python weekday 4); and when the previous month ends on a Thursday
the returned date is day 1 of the input month itself (witnessed by
2024-11, whose previous month ends Thursday 2024-10-31). -/
theorem c10_last_friday_shifted_thursday (y m : Int) (h1 : 1 ≤ m) (h2 : m ≤ 12) :
    last_friday_of_previous_month y m =
      nextDay (last_thursday (if m = 1 then y - 1 else y) (if m = 1 then 12 else m - 1)) ∧
    dayOfWeek (last_friday_of_previous_month y m).year
      (last_friday_of_previous_month y m).month
      (last_friday_of_previous_month y m).day = 4 ∧
    last_friday_of_previous_month 2024 11 = ⟨2024, 11, 1⟩ := by
  have key : ∀ py pm : Int, 1 ≤ pm → pm ≤ 12 →
      dayOfWeek (nextDay (last_thursday py pm)).year (nextDay (last_thursday py pm)).month
        (nextDay (last_thursday py pm)).day = 4 := by
    intro py pm hp1 hp2
    have hb := last_thursday_day_bounds py pm hp1 hp2
    have hw := last_thursday_weekday py pm hp1 hp2
    have heq : last_thursday py pm = ⟨py, pm, (last_thursday py pm).day⟩ := rfl
    have hstep := dayOfWeek_nextDay py pm (last_thursday py pm).day hp1 hp2 hb.1 hb.2
    rw [heq, hstep, hw]
  have heqd : last_friday_of_previous_month y m =
      nextDay (last_thursday (if m = 1 then y - 1 else y)
        (if m = 1 then 12 else m - 1)) := by
    by_cases hm1 : m = 1 <;>
      simp [last_friday_of_previous_month, last_thursday, hm1]
  refine ⟨heqd, ?_, by decide⟩
  rw [heqd]
  exact key _ _ (by split_ifs <;> omega) (by split_ifs <;> omega)

theorem c10_last_friday_shifted_thursday_witness :
    (1 : Int) ≤ 11 ∧ (11 : Int) ≤ 12 ∧
    (last_friday_of_previous_month 2024 11 =
        nextDay (last_thursday (if (11 : Int) = 1 then 2024 - 1 else 2024)
          (if (11 : Int) = 1 then 12 else 11 - 1)) ∧
      dayOfWeek (last_friday_of_previous_month 2024 11).year
        (last_friday_of_previous_month 2024 11).month
        (last_friday_of_previous_month 2024 11).day = 4 ∧
      last_friday_of_previous_month 2024 11 = ⟨2024, 11, 1⟩) :=
  ⟨by norm_num, by norm_num,
    c10_last_friday_shifted_thursday 2024 11 (by norm_num) (by norm_num)⟩
